import Mathlib

/-!
# Entity Resolution & Intelligence Scoring Engine — verification development

Shallow embedding of the `/api/graph` request handler of the gateway service
(the "Entity Resolution & Intelligence Scoring Engine"): aggregation of raw
intelligence rows into canonical entities, temporal classification, priority
scoring, pattern detection and graph assembly.

Modelling conventions:
* SQL rows become the `Row` structure; `NULL`-able columns are `Option`s.
* JS `Date.getTime()` millisecond timestamps become `Int`; the wall clock
  `Date.now()` is an explicit `now : Int` parameter.
* The two mutable accumulator `Map`s of the handler (`entityStats` and
  `entityPatterns`) become insertion-ordered association lists built by a
  common fold (`mapFold` below), mirroring the handler's
  "if absent, seed; then mutate" iteration exactly — in particular the
  seeding observation itself also goes through the mutation step, and
  `metadata: item.metadata || {}` aliases the first row's metadata object, so
  the subsequent `relations` concatenation for that same row doubles it.
* JS `Set` (insertion-ordered, deduplicating) becomes `insertSet` on lists.
* `Math.log2`/floating point arithmetic of the priority scorer is modelled
  over `ℝ` with `Real.logb 2`; `Math.round` (half-up) is Mathlib's `round`
  (`round x = ⌊x + 1/2⌋`, identical on the non-negative values that occur).
  Everything outside the scorer is exact (`ℚ`/`Int`/`ℕ`) and executable.
-/

namespace Engine

/-- A `relations` entry of an observation's metadata: `{label, target}`.
The engine never inspects these, it only concatenates the arrays. -/
abbrev RelEntry := String × String

/-- The open metadata mapping of an intelligence row.  Only the fields the
graph handler reads are modelled; absent JS fields are `none`. -/
structure Meta where
  relations : Option (List RelEntry) := none
  average_sentiment : Option ℚ := none
  ttps : Option (List String) := none
  deriving DecidableEq, Repr

/-- One raw intelligence row, as returned by the handler's SQL query
(`SELECT i.id, i.investigation_id, i.type, i.value, i.normalized_value,
i.created_at, … FROM intelligence i JOIN investigations inv …`).
Columns the engine does not read (`confidence`, `score`, `sentiment_score`)
are omitted. -/
structure Row where
  id : String
  investigation_id : String
  type : String
  value : String
  normalized_value : Option String
  created_at : Option Int
  source_type : Option String
  metadata : Option Meta
  deriving DecidableEq, Repr

/-- An investigation record (`SELECT id, target_url FROM investigations
WHERE user_id = $1`). -/
structure Investigation where
  id : String
  target_url : String
  deriving DecidableEq, Repr

/-- The SQL `WHERE … i.normalized_value IS NOT NULL` filter of the
intelligence query: rows with a missing `normalized_value` never reach the
aggregation loop.  (Empty-string values do pass this filter.) -/
def dbFilter (rows : List Row) : List Row :=
  rows.filter (fun r => r.normalized_value ≠ none)

/-- `new Date(item.created_at || Date.now()).getTime()`: the effective
timestamp of a row, falling back to the wall clock when the column is NULL. -/
def effDate (now : Int) (r : Row) : Int :=
  r.created_at.getD now

/-- JS `Set.add`: insertion-ordered, deduplicating. -/
def insertSet (l : List String) (x : String) : List String :=
  if x ∈ l then l else l ++ [x]

/-- The grouping key of the aggregation loop:
`` const entId = `ent - ${ item.type } -${ item.normalized_value } ` ``. -/
def entIdOf (r : Row) : String :=
  "ent - " ++ r.type ++ " -" ++ r.normalized_value.getD "" ++ " "

/-! ## Insertion-ordered map fold

Both accumulator maps of the handler are built by the same shape of loop:

```
rows.forEach(item => {
  const k = key(item);
  if (!m.has(k)) m.set(k, seed(item));
  const s = m.get(k)!;  …mutate s using item…
});
```

`mapFold` is that loop on association lists (JS `Map` iterates in insertion
order).  `mfind` is `Map.get`. -/

/-- Association-list lookup (`Map.get`). -/
def mfind {σ : Type} : List (String × σ) → String → Option σ
  | [], _ => none
  | e :: t, k => if e.1 = k then some e.2 else mfind t k

/-- Apply `f` to the value stored under `k` (in-place mutation of a present
entry). -/
def mupdate {σ : Type} (m : List (String × σ)) (k : String) (f : σ → σ) :
    List (String × σ) :=
  m.map (fun e => if e.1 = k then (e.1, f e.2) else e)

/-- One iteration of the accumulator loop: seed the key if absent, then
mutate its entry with the current row. -/
def mstep {σ : Type} (key : Row → String) (seed : Row → σ) (upd : σ → Row → σ)
    (m : List (String × σ)) (r : Row) : List (String × σ) :=
  mupdate (if (mfind m (key r)).isSome then m else m ++ [(key r, seed r)])
    (key r) (fun s => upd s r)

/-- The whole accumulator loop. -/
def mapFold {σ : Type} (key : Row → String) (seed : Row → σ) (upd : σ → Row → σ)
    (l : List Row) : List (String × σ) :=
  l.foldl (mstep key seed upd) []

theorem mfind_mupdate {σ : Type} (m : List (String × σ)) (k k' : String)
    (f : σ → σ) :
    mfind (mupdate m k f) k' =
      if k' = k then (mfind m k).map f else mfind m k' := by
  induction m with
  | nil => by_cases h : k' = k <;> simp [mupdate, mfind, h]
  | cons e t ih =>
    simp only [mupdate, List.map_cons] at ih ⊢
    by_cases he : e.1 = k
    · by_cases hk : k' = k
      · subst hk
        simp [mfind, he]
      · have hek' : ¬ e.1 = k' := fun h => hk (h ▸ he)
        have hk2 : ¬ k = k' := fun h => hk h.symm
        simp [mfind, he, hek', hk, hk2, ih]
    · by_cases hk' : e.1 = k'
      · have hkk : ¬ k' = k := fun h => he (hk'.trans h)
        simp [mfind, he, hk', hkk]
      · simp [mfind, he, hk', ih]

theorem mfind_append_single {σ : Type} (m : List (String × σ)) (k k' : String)
    (s : σ) :
    mfind (m ++ [(k, s)]) k' =
      match mfind m k' with
      | some t => some t
      | none => if k = k' then some s else none := by
  induction m with
  | nil => simp [mfind]
  | cons e t ih =>
    by_cases h : e.1 = k'
    · simp [mfind, h]
    · simp [mfind, h, ih]

/-- The effect of one loop iteration on a single key's entry. -/
theorem mfind_mstep {σ : Type} (key : Row → String) (seed : Row → σ)
    (upd : σ → Row → σ) (m : List (String × σ)) (r : Row) (k : String) :
    mfind (mstep key seed upd m r) k =
      if key r = k then some (upd ((mfind m k).getD (seed r)) r)
      else mfind m k := by
  unfold mstep
  rw [mfind_mupdate]
  by_cases hk : key r = k
  · rw [if_pos hk, if_pos hk.symm]
    subst hk
    cases h : mfind m (key r) with
    | some s => simp [h]
    | none => simp [h, mfind_append_single]
  · rw [if_neg hk, if_neg (fun h : k = key r => hk h.symm)]
    cases h : mfind m (key r) with
    | some s => simp [h]
    | none =>
      simp only [h, Option.isSome_none, Bool.false_eq_true, if_false]
      rw [mfind_append_single]
      cases h' : mfind m k with
      | some t => rfl
      | none => simp [hk]

/-- Single-key view of the loop: folding the whole row list and then looking
up `k` is the same as folding only the rows whose key is `k`, seeding on the
first of them. -/
theorem mfind_foldl_mstep {σ : Type} (key : Row → String) (seed : Row → σ)
    (upd : σ → Row → σ) (l : List Row) :
    ∀ (m : List (String × σ)) (k : String),
      mfind (l.foldl (mstep key seed upd) m) k =
        (l.filter (fun r => key r = k)).foldl
          (fun a r => some (upd (a.getD (seed r)) r)) (mfind m k) := by
  induction l with
  | nil => intro m k; rfl
  | cons r t ih =>
    intro m k
    simp only [List.foldl_cons]
    rw [ih]
    by_cases h : key r = k
    · rw [List.filter_cons_of_pos (by simpa using h)]
      simp only [List.foldl_cons]
      rw [mfind_mstep, if_pos h]
    · rw [List.filter_cons_of_neg (by simpa using h)]
      rw [mfind_mstep, if_neg h]

theorem option_foldl_some {σ : Type} (upd : σ → Row → σ) (seed : Row → σ)
    (t : List Row) (s : σ) :
    t.foldl (fun (a : Option σ) r => some (upd (a.getD (seed r)) r)) (some s) =
      some (t.foldl upd s) := by
  induction t generalizing s with
  | nil => rfl
  | cons r t ih => simp only [List.foldl_cons, Option.getD_some, ih]

/-- Characterization of `mapFold` at a key: the entry under `k` exists iff
some row has key `k`, and then it is the fold of `upd` over exactly the rows
keyed `k`, starting from the seeded-and-updated first such row. -/
theorem mfind_mapFold {σ : Type} (key : Row → String) (seed : Row → σ)
    (upd : σ → Row → σ) (l : List Row) (k : String) :
    mfind (mapFold key seed upd l) k =
      match l.filter (fun r => key r = k) with
      | [] => none
      | r :: t => some (t.foldl upd (upd (seed r) r)) := by
  unfold mapFold
  rw [mfind_foldl_mstep]
  cases h : l.filter (fun r => key r = k) with
  | nil => rfl
  | cons r t =>
    simp only [List.foldl_cons, mfind, Option.getD_none]
    exact option_foldl_some upd seed t (upd (seed r) r)

/-! ### Keys of a `mapFold` -/

/-- The key list of an association map, in insertion order. -/
def mkeys {σ : Type} (m : List (String × σ)) : List String :=
  m.map Prod.fst

theorem mkeys_mupdate {σ : Type} (m : List (String × σ)) (k : String)
    (f : σ → σ) : mkeys (mupdate m k f) = mkeys m := by
  induction m with
  | nil => rfl
  | cons e t ih =>
    simp only [mupdate, mkeys, List.map_cons] at ih ⊢
    by_cases h : e.1 = k <;> simp [h, ih]

theorem mfind_eq_none_iff {σ : Type} (m : List (String × σ)) (k : String) :
    mfind m k = none ↔ k ∉ mkeys m := by
  induction m with
  | nil => simp [mfind, mkeys]
  | cons e t ih =>
    simp only [mkeys, List.map_cons, List.mem_cons, not_or] at ih ⊢
    by_cases h : e.1 = k
    · simp [mfind, h]
    · have h2 : ¬ k = e.1 := fun hh => h hh.symm
      simp [mfind, h, h2, ih]

theorem mkeys_nodup_mstep {σ : Type} (key : Row → String) (seed : Row → σ)
    (upd : σ → Row → σ) (m : List (String × σ)) (r : Row)
    (h : (mkeys m).Nodup) : (mkeys (mstep key seed upd m r)).Nodup := by
  unfold mstep
  rw [mkeys_mupdate]
  cases hf : mfind m (key r) with
  | some s => simpa [hf] using h
  | none =>
    have : key r ∉ mkeys m := (mfind_eq_none_iff m (key r)).mp hf
    simp only [hf, Option.isSome_none, Bool.false_eq_true, if_false]
    simpa [mkeys, List.nodup_append] using And.intro h this

theorem mkeys_nodup_mapFold {σ : Type} (key : Row → String) (seed : Row → σ)
    (upd : σ → Row → σ) (l : List Row) :
    (mkeys (mapFold key seed upd l)).Nodup := by
  unfold mapFold
  suffices h : ∀ (m : List (String × σ)), (mkeys m).Nodup →
      (mkeys (l.foldl (mstep key seed upd) m)).Nodup by
    exact h [] (by simp [mkeys])
  induction l with
  | nil => intro m hm; exact hm
  | cons r t ih =>
    intro m hm
    exact ih _ (mkeys_nodup_mstep key seed upd m r hm)

theorem mfind_eq_some_of_mem {σ : Type} (m : List (String × σ)) (k : String)
    (s : σ) (hnd : (mkeys m).Nodup) (hmem : (k, s) ∈ m) :
    mfind m k = some s := by
  induction m with
  | nil => simp at hmem
  | cons e t ih =>
    simp only [mkeys, List.map_cons, List.nodup_cons] at hnd
    rcases List.mem_cons.mp hmem with h | h
    · subst h; simp [mfind]
    · have hk : ¬ e.1 = k := by
        intro hek
        exact hnd.1 (hek ▸ (List.mem_map.mpr ⟨(k, s), h, rfl⟩))
      simp only [mfind, if_neg hk]
      exact ih hnd.2 h

theorem mem_of_mfind_eq_some {σ : Type} (m : List (String × σ)) (k : String)
    (s : σ) (h : mfind m k = some s) : (k, s) ∈ m := by
  induction m with
  | nil => simp [mfind] at h
  | cons e t ih =>
    by_cases he : e.1 = k
    · simp only [mfind, if_pos he] at h
      obtain ⟨e1, e2⟩ := e
      have h1 : e1 = k := he
      have h2 : e2 = s := Option.some.inj h
      subst h1; subst h2
      exact List.mem_cons_self _ _
    · simp only [mfind, if_neg he] at h
      exact List.mem_cons_of_mem _ (ih h)

/-- Every key of a `mapFold` is the key of one of the rows. -/
theorem mapFold_key_source {σ : Type} (key : Row → String) (seed : Row → σ)
    (upd : σ → Row → σ) (l : List Row) (k : String) (s : σ)
    (h : mfind (mapFold key seed upd l) k = some s) :
    ∃ r ∈ l, key r = k := by
  rw [mfind_mapFold] at h
  cases hf : l.filter (fun r => key r = k) with
  | nil => rw [hf] at h; simp at h
  | cons r t =>
    have hr : r ∈ l.filter (fun r => key r = k) := by rw [hf]; exact List.mem_cons_self r t
    have := List.mem_filter.mp hr
    exact ⟨r, this.1, by simpa using this.2⟩

/-! ## Entity Aggregator

`entityStats` (handler lines: `const entityStats = new Map<string, EntityStats>()`
and the `intelRows.rows.forEach` aggregation loop). -/

/-- The per-key accumulator record (`interface EntityStats`). -/
structure EntityStats where
  type : String
  value : String
  normalized_value : String
  first_seen : Int
  last_seen : Int
  frequency : ℕ
  sources : List String
  investigation_ids : List String
  metadata : Meta
  deriving DecidableEq, Repr

/-- The seed stored by `entityStats.set(entId, {...})` when a key is first
seen.  `metadata: item.metadata || {}` starts from the row's own metadata. -/
def seedStats (now : Int) (r : Row) : EntityStats where
  type := r.type
  value := r.value
  normalized_value := r.normalized_value.getD ""
  first_seen := effDate now r
  last_seen := effDate now r
  frequency := 0
  sources := []
  investigation_ids := []
  metadata := r.metadata.getD {}

/-- The mutation applied to the entry for every row (including the seeding
row itself): frequency increment, investigation/source set inserts, running
min/max of `created_at`, and the `relations` concatenation. -/
def updStats (now : Int) (s : EntityStats) (r : Row) : EntityStats :=
  let cur := effDate now r
  { s with
    frequency := s.frequency + 1
    investigation_ids := insertSet s.investigation_ids r.investigation_id
    first_seen := if cur < s.first_seen then cur else s.first_seen
    last_seen := if s.last_seen < cur then cur else s.last_seen
    sources :=
      match r.source_type with
      | some st => if st = "" then s.sources else insertSet s.sources st
      | none => s.sources
    metadata :=
      match r.metadata.bind (fun md => md.relations) with
      | some newrels =>
          { s.metadata with
            relations := some (s.metadata.relations.getD [] ++ newrels) }
      | none => s.metadata }

/-- The aggregation map of one run, over the rows returned by the SQL query
(the caller composes with `dbFilter`). -/
def entityStats (now : Int) (rows : List Row) : List (String × EntityStats) :=
  mapFold entIdOf (seedStats now) (updStats now) rows

/-- The rows of the run that contribute to the entity keyed `k`. -/
def contributing (rows : List Row) (k : String) : List Row :=
  rows.filter (fun r => entIdOf r = k)

theorem mem_insertSet {l : List String} {x y : String} :
    x ∈ insertSet l y ↔ x ∈ l ∨ x = y := by
  unfold insertSet
  by_cases h : y ∈ l
  · simp only [if_pos h]
    constructor
    · exact Or.inl
    · rintro (hx | rfl) <;> [exact hx; exact h]
  · simp [if_neg h]

theorem self_mem_insertSet (l : List String) (y : String) :
    y ∈ insertSet l y := mem_insertSet.mpr (Or.inr rfl)

theorem mem_insertSet_of_mem {l : List String} {x : String} (y : String)
    (h : x ∈ l) : x ∈ insertSet l y := mem_insertSet.mpr (Or.inl h)

theorem updStats_value (now : Int) (s : EntityStats) (r : Row) :
    (updStats now s r).value = s.value := rfl

theorem updStats_type (now : Int) (s : EntityStats) (r : Row) :
    (updStats now s r).type = s.type := rfl

theorem updStats_frequency (now : Int) (s : EntityStats) (r : Row) :
    (updStats now s r).frequency = s.frequency + 1 := rfl

theorem updStats_invIds (now : Int) (s : EntityStats) (r : Row) :
    (updStats now s r).investigation_ids =
      insertSet s.investigation_ids r.investigation_id := rfl

theorem updStats_first_seen (now : Int) (s : EntityStats) (r : Row) :
    (updStats now s r).first_seen = min s.first_seen (effDate now r) := by
  show (if effDate now r < s.first_seen then effDate now r else s.first_seen) = _
  rw [min_def]
  split_ifs with h1 h2 h2 <;> omega

theorem updStats_last_seen (now : Int) (s : EntityStats) (r : Row) :
    (updStats now s r).last_seen = max s.last_seen (effDate now r) := by
  show (if s.last_seen < effDate now r then effDate now r else s.last_seen) = _
  rw [max_def]
  split_ifs with h1 h2 h2 <;> omega

theorem updStats_sentiment (now : Int) (s : EntityStats) (r : Row) :
    (updStats now s r).metadata.average_sentiment =
      s.metadata.average_sentiment := by
  unfold updStats
  cases h : r.metadata.bind (fun md => md.relations) <;> simp [h]

theorem updStats_ttps (now : Int) (s : EntityStats) (r : Row) :
    (updStats now s r).metadata.ttps = s.metadata.ttps := by
  unfold updStats
  cases h : r.metadata.bind (fun md => md.relations) <;> simp [h]

/-- What one mutation does to the accumulated `relations`. -/
theorem updStats_relations (now : Int) (s : EntityStats) (r : Row) :
    (updStats now s r).metadata.relations =
      match r.metadata.bind (fun md => md.relations) with
      | some newrels => some (s.metadata.relations.getD [] ++ newrels)
      | none => s.metadata.relations := by
  unfold updStats
  cases h : r.metadata.bind (fun md => md.relations) <;> simp [h]

theorem foldl_updStats_value (now : Int) (t : List Row) (s : EntityStats) :
    (t.foldl (updStats now) s).value = s.value := by
  induction t generalizing s with
  | nil => rfl
  | cons r t ih => simp only [List.foldl_cons, ih, updStats_value]

theorem foldl_updStats_type (now : Int) (t : List Row) (s : EntityStats) :
    (t.foldl (updStats now) s).type = s.type := by
  induction t generalizing s with
  | nil => rfl
  | cons r t ih => simp only [List.foldl_cons, ih, updStats_type]

theorem foldl_updStats_frequency (now : Int) (t : List Row) (s : EntityStats) :
    (t.foldl (updStats now) s).frequency = s.frequency + t.length := by
  induction t generalizing s with
  | nil => rfl
  | cons r t ih =>
    simp only [List.foldl_cons, ih, updStats_frequency, List.length_cons]
    omega

theorem foldl_updStats_sentiment (now : Int) (t : List Row) (s : EntityStats) :
    (t.foldl (updStats now) s).metadata.average_sentiment =
      s.metadata.average_sentiment := by
  induction t generalizing s with
  | nil => rfl
  | cons r t ih => simp only [List.foldl_cons, ih, updStats_sentiment]

theorem foldl_updStats_ttps (now : Int) (t : List Row) (s : EntityStats) :
    (t.foldl (updStats now) s).metadata.ttps = s.metadata.ttps := by
  induction t generalizing s with
  | nil => rfl
  | cons r t ih => simp only [List.foldl_cons, ih, updStats_ttps]

theorem foldl_updStats_first_seen_le (now : Int) (t : List Row)
    (s : EntityStats) :
    (t.foldl (updStats now) s).first_seen ≤ s.first_seen ∧
      ∀ r ∈ t, (t.foldl (updStats now) s).first_seen ≤ effDate now r := by
  induction t generalizing s with
  | nil => exact ⟨le_refl _, by simp⟩
  | cons r t ih =>
    simp only [List.foldl_cons]
    obtain ⟨h1, h2⟩ := ih (updStats now s r)
    rw [updStats_first_seen] at h1
    refine ⟨h1.trans (min_le_left _ _), ?_⟩
    intro r' hr'
    rcases List.mem_cons.mp hr' with rfl | hr'
    · exact h1.trans (min_le_right _ _)
    · exact h2 r' hr'

theorem foldl_updStats_first_seen_mem (now : Int) (t : List Row)
    (s : EntityStats) :
    (t.foldl (updStats now) s).first_seen = s.first_seen ∨
      ∃ r ∈ t, (t.foldl (updStats now) s).first_seen = effDate now r := by
  induction t generalizing s with
  | nil => exact Or.inl rfl
  | cons r t ih =>
    simp only [List.foldl_cons]
    rcases ih (updStats now s r) with h | ⟨r', hr', h⟩
    · rw [updStats_first_seen, min_def] at h
      split_ifs at h
      · exact Or.inl h
      · exact Or.inr ⟨r, List.mem_cons_self _ _, h⟩
    · exact Or.inr ⟨r', List.mem_cons_of_mem _ hr', h⟩

theorem foldl_updStats_last_seen_le (now : Int) (t : List Row)
    (s : EntityStats) :
    s.last_seen ≤ (t.foldl (updStats now) s).last_seen ∧
      ∀ r ∈ t, effDate now r ≤ (t.foldl (updStats now) s).last_seen := by
  induction t generalizing s with
  | nil => exact ⟨le_refl _, by simp⟩
  | cons r t ih =>
    simp only [List.foldl_cons]
    obtain ⟨h1, h2⟩ := ih (updStats now s r)
    rw [updStats_last_seen] at h1
    refine ⟨(le_max_left _ _).trans h1, ?_⟩
    intro r' hr'
    rcases List.mem_cons.mp hr' with rfl | hr'
    · exact (le_max_right _ _).trans h1
    · exact h2 r' hr'

theorem foldl_updStats_last_seen_mem (now : Int) (t : List Row)
    (s : EntityStats) :
    (t.foldl (updStats now) s).last_seen = s.last_seen ∨
      ∃ r ∈ t, (t.foldl (updStats now) s).last_seen = effDate now r := by
  induction t generalizing s with
  | nil => exact Or.inl rfl
  | cons r t ih =>
    simp only [List.foldl_cons]
    rcases ih (updStats now s r) with h | ⟨r', hr', h⟩
    · rw [updStats_last_seen, max_def] at h
      split_ifs at h
      · exact Or.inr ⟨r, List.mem_cons_self _ _, h⟩
      · exact Or.inl h
    · exact Or.inr ⟨r', List.mem_cons_of_mem _ hr', h⟩

theorem foldl_updStats_invIds_mem (now : Int) (t : List Row)
    (s : EntityStats) (x : String) :
    x ∈ (t.foldl (updStats now) s).investigation_ids ↔
      x ∈ s.investigation_ids ∨ ∃ r ∈ t, r.investigation_id = x := by
  induction t generalizing s with
  | nil => simp
  | cons r t ih =>
    simp only [List.foldl_cons]
    rw [ih (updStats now s r), updStats_invIds, mem_insertSet]
    constructor
    · rintro ((hx | rfl) | ⟨r', hr', hx⟩)
      · exact Or.inl hx
      · exact Or.inr ⟨r, List.mem_cons_self _ _, rfl⟩
      · exact Or.inr ⟨r', List.mem_cons_of_mem _ hr', hx⟩
    · rintro (hx | ⟨r', hr', hx⟩)
      · exact Or.inl (Or.inl hx)
      · rcases List.mem_cons.mp hr' with rfl | hr'
        · exact Or.inl (Or.inr hx.symm)
        · exact Or.inr ⟨r', hr', hx⟩

/-- `item.metadata?.relations` of a row. -/
def relsOf (r : Row) : Option (List RelEntry) :=
  r.metadata.bind (fun md => md.relations)

theorem seedStats_relations (now : Int) (r : Row) :
    (seedStats now r).metadata.relations = relsOf r := by
  unfold seedStats relsOf
  cases r.metadata <;> rfl

/-- The accumulated `relations` option evolves by the pure fold below. -/
def relFold (init : Option (List RelEntry)) (t : List Row) :
    Option (List RelEntry) :=
  t.foldl
    (fun a r =>
      match relsOf r with
      | some newrels => some (a.getD [] ++ newrels)
      | none => a) init

theorem foldl_updStats_relations (now : Int) (t : List Row)
    (s : EntityStats) :
    (t.foldl (updStats now) s).metadata.relations =
      relFold s.metadata.relations t := by
  induction t generalizing s with
  | nil => rfl
  | cons r t ih =>
    simp only [List.foldl_cons, relFold]
    rw [ih (updStats now s r), updStats_relations]
    rfl

theorem relFold_getD (t : List Row) (init : Option (List RelEntry)) :
    (relFold init t).getD [] =
      init.getD [] ++ t.flatMap (fun r => (relsOf r).getD []) := by
  induction t generalizing init with
  | nil => simp [relFold]
  | cons r t ih =>
    simp only [relFold, List.foldl_cons] at ih ⊢
    cases h : relsOf r with
    | some newrels => simp [h, ih, List.flatMap_cons]
    | none => simp [h, ih, List.flatMap_cons]

/-- Full characterization of a canonical entity produced by the aggregation
loop: the entry under key `k` exists exactly when some row of the run has
key `k`; `value`/`type` come from the first such row; `frequency` counts the
contributing rows (duplicates included); `first_seen`/`last_seen` are the
min/max of the contributing rows' effective timestamps; the investigation-id
set is exactly the set of contributing rows' investigation ids (hence
nonempty); the merged sentiment and ttps are the first row's, untouched; and
the merged relations are the first row's relations twice (the
`metadata: item.metadata || {}` alias makes its own concatenation double
them) followed by the later contributing rows' relations in order. -/
theorem entityStats_spec (now : Int) (rows : List Row) (k : String)
    (s : EntityStats) (h : mfind (entityStats now rows) k = some s) :
    ∃ r0 t, contributing rows k = r0 :: t ∧
      s.value = r0.value ∧
      s.type = r0.type ∧
      s.frequency = (contributing rows k).length ∧
      (∀ r ∈ contributing rows k,
        s.first_seen ≤ effDate now r ∧ effDate now r ≤ s.last_seen) ∧
      (∃ r ∈ contributing rows k, s.first_seen = effDate now r) ∧
      (∃ r ∈ contributing rows k, s.last_seen = effDate now r) ∧
      (∀ x, x ∈ s.investigation_ids ↔
        ∃ r ∈ contributing rows k, r.investigation_id = x) ∧
      s.investigation_ids ≠ [] ∧
      s.metadata.average_sentiment = (r0.metadata.getD {}).average_sentiment ∧
      s.metadata.ttps = (r0.metadata.getD {}).ttps ∧
      s.metadata.relations.getD [] =
        ((relsOf r0).getD [] ++ (relsOf r0).getD []) ++
          t.flatMap (fun r => (relsOf r).getD []) := by
  unfold entityStats at h
  rw [mfind_mapFold] at h
  rcases hf : rows.filter (fun r => entIdOf r = k) with _ | ⟨r0, t⟩
  · rw [hf] at h; simp at h
  · rw [hf] at h
    have hs : s = t.foldl (updStats now) (updStats now (seedStats now r0) r0) :=
      (Option.some.inj h).symm
    have hcontrib : contributing rows k = r0 :: t := hf
    set s0 : EntityStats := updStats now (seedStats now r0) r0 with hs0
    refine ⟨r0, t, hcontrib, ?_, ?_, ?_, ?_, ?_, ?_, ?_, ?_, ?_, ?_, ?_⟩
    · rw [hs, foldl_updStats_value]; rfl
    · rw [hs, foldl_updStats_type]; rfl
    · rw [hs, foldl_updStats_frequency, hcontrib]
      show s0.frequency + t.length = t.length + 1
      have : s0.frequency = 1 := rfl
      omega
    · intro r hr
      rw [hcontrib] at hr
      have h0first : s0.first_seen = effDate now r0 := by
        rw [hs0, updStats_first_seen]
        show min (effDate now r0) (effDate now r0) = _
        exact min_self _
      have h0last : s0.last_seen = effDate now r0 := by
        rw [hs0, updStats_last_seen]
        show max (effDate now r0) (effDate now r0) = _
        exact max_self _
      obtain ⟨hf1, hf2⟩ := foldl_updStats_first_seen_le now t s0
      obtain ⟨hl1, hl2⟩ := foldl_updStats_last_seen_le now t s0
      rcases List.mem_cons.mp hr with rfl | hr
      · exact ⟨hs ▸ (hf1.trans_eq h0first), hs ▸ (h0last ▸ hl1)⟩
      · exact ⟨hs ▸ hf2 r hr, hs ▸ hl2 r hr⟩
    · have h0first : s0.first_seen = effDate now r0 := by
        rw [hs0, updStats_first_seen]
        show min (effDate now r0) (effDate now r0) = _
        exact min_self _
      rcases foldl_updStats_first_seen_mem now t s0 with hm | ⟨r, hr, hm⟩
      · exact ⟨r0, by rw [hcontrib]; exact List.mem_cons_self _ _,
          by rw [hs, hm, h0first]⟩
      · exact ⟨r, by rw [hcontrib]; exact List.mem_cons_of_mem _ hr,
          by rw [hs, hm]⟩
    · have h0last : s0.last_seen = effDate now r0 := by
        rw [hs0, updStats_last_seen]
        show max (effDate now r0) (effDate now r0) = _
        exact max_self _
      rcases foldl_updStats_last_seen_mem now t s0 with hm | ⟨r, hr, hm⟩
      · exact ⟨r0, by rw [hcontrib]; exact List.mem_cons_self _ _,
          by rw [hs, hm, h0last]⟩
      · exact ⟨r, by rw [hcontrib]; exact List.mem_cons_of_mem _ hr,
          by rw [hs, hm]⟩
    · intro x
      have h0 : s0.investigation_ids = [r0.investigation_id] := by
        rw [hs0, updStats_invIds]
        rfl
      rw [hs, foldl_updStats_invIds_mem, h0, hcontrib]
      constructor
      · rintro (hx | ⟨r, hr, hx⟩)
        · exact ⟨r0, List.mem_cons_self _ _, (List.mem_singleton.mp hx).symm⟩
        · exact ⟨r, List.mem_cons_of_mem _ hr, hx⟩
      · rintro ⟨r, hr, hx⟩
        rcases List.mem_cons.mp hr with rfl | hr
        · exact Or.inl (List.mem_singleton.mpr hx.symm)
        · exact Or.inr ⟨r, hr, hx⟩
    · have h0 : s0.investigation_ids = [r0.investigation_id] := by
        rw [hs0, updStats_invIds]
        rfl
      intro hnil
      have : r0.investigation_id ∈ s.investigation_ids := by
        rw [hs, foldl_updStats_invIds_mem, h0]
        exact Or.inl (List.mem_singleton.mpr rfl)
      rw [hnil] at this
      simp at this
    · rw [hs, foldl_updStats_sentiment, hs0, updStats_sentiment]
      rfl
    · rw [hs, foldl_updStats_ttps, hs0, updStats_ttps]
      rfl
    · rw [hs, foldl_updStats_relations, relFold_getD]
      congr 1
      rw [hs0, updStats_relations, seedStats_relations]
      cases hr : relsOf r0 <;> simp only [relsOf] at hr <;> simp [hr]

/-! ## Temporal Classifier

`const oneDayMs = 24 * 60 * 60 * 1000;` and the `diffDays` bucketing. -/

def oneDayMs : Int := 24 * 60 * 60 * 1000

/-- `const diffDays = (nowTime - stats.last_seen.getTime()) / oneDayMs;`
(exact rational division — JS float division is exact on these magnitudes
only up to rounding, but the comparisons against 7/90/365 are modelled on
the exact value). -/
def ageDays (now last : Int) : ℚ :=
  ((now - last : Int) : ℚ) / (oneDayMs : ℚ)

/-- ```
let agingCategory = 'ANCIENT';
if (diffDays <= 7) agingCategory = 'FRESH';
else if (diffDays <= 90) agingCategory = 'RECENT';
else if (diffDays <= 365) agingCategory = 'STALE';
``` -/
def agingCategory (now last : Int) : String :=
  if ageDays now last ≤ 7 then "FRESH"
  else if ageDays now last ≤ 90 then "RECENT"
  else if ageDays now last ≤ 365 then "STALE"
  else "ANCIENT"

/-! ## Priority Scorer (Phase 27, "Priority Score 2.0")

Floating-point `Math` arithmetic is modelled over `ℝ`, with `Math.log2 x`
as `Real.logb 2 x` and `Math.round` as Mathlib's `round` (half-up, identical
to JS on the non-negative values produced here). -/

/-- `const relationsCount = (stats.metadata?.relations?.length || 0);` -/
def relationsCount (s : EntityStats) : ℕ :=
  (s.metadata.relations.getD []).length

/-- `const degree = relationsCount + stats.investigation_ids.size;` -/
def degreeOf (s : EntityStats) : ℕ :=
  relationsCount s + s.investigation_ids.length

/-- `Math.min(100, 10 + Math.log2(Math.max(1, degree)) * 20)` -/
noncomputable def degreeScore (degree : ℕ) : ℝ :=
  min 100 (10 + Real.logb 2 (max 1 (degree : ℝ)) * 20)

/-- `Math.min(100, stats.frequency * 3)` -/
noncomputable def freqScore (frequency : ℕ) : ℝ :=
  min 100 ((frequency : ℝ) * 3)

/-- `Math.min(100, (stats.investigation_ids.size - 1) * 50)` -/
noncomputable def crossInvScore (invCount : ℕ) : ℝ :=
  min 100 (((invCount : ℝ) - 1) * 50)

/-- `const sentiment = stats.metadata?.average_sentiment || 0;` -/
def sentimentOf (s : EntityStats) : ℚ :=
  s.metadata.average_sentiment.getD 0

/-- `Math.max(0, Math.min(100, 50 - sentiment * 50))` -/
noncomputable def sentimentScore (sentiment : ℚ) : ℝ :=
  max 0 (min 100 (50 - (sentiment : ℝ) * 50))

/-- `freshnessMap[agingCategory] || 0` with
`{ 'FRESH': 100, 'RECENT': 70, 'STALE': 30, 'ANCIENT': 0 }`. -/
noncomputable def freshnessScore (cat : String) : ℝ :=
  if cat = "FRESH" then 100
  else if cat = "RECENT" then 70
  else if cat = "STALE" then 30
  else 0

/-- The weighted combination inside `Math.round(...)`. -/
noncomputable def priorityRaw (now : Int) (s : EntityStats) : ℝ :=
  0.25 * degreeScore (degreeOf s) +
  0.20 * freqScore s.frequency +
  0.25 * crossInvScore s.investigation_ids.length +
  0.15 * sentimentScore (sentimentOf s) +
  0.15 * freshnessScore (agingCategory now s.last_seen)

/-- `const priorityScore = Math.round(0.25*degreeScore + …);` -/
noncomputable def priorityScoreOf (now : Int) (s : EntityStats) : ℤ :=
  round (priorityRaw now s)

/-- The `priority.breakdown` payload of an entity node
(each sub-score passes through `Math.round`). -/
structure ScoreBreakdown where
  degree : ℤ
  frequency : ℤ
  cross_investigation : ℤ
  sentiment : ℤ
  freshness : ℤ

noncomputable def breakdownOf (now : Int) (s : EntityStats) : ScoreBreakdown where
  degree := round (degreeScore (degreeOf s))
  frequency := round (freqScore s.frequency)
  cross_investigation := round (crossInvScore s.investigation_ids.length)
  sentiment := round (sentimentScore (sentimentOf s))
  freshness := round (freshnessScore (agingCategory now s.last_seen))

/-! ## Graph nodes and edges

Only the identity-relevant projection of the pushed node/edge objects is
modelled (`id`, the React-Flow `type` tag, and edge endpoints); the visual
payload (labels, colors, positions, sizes) is opaque to every claim. -/

/-- A node as pushed onto the `nodes` array (projection to its id and its
React-Flow `type` tag; `""` stands for an absent tag). -/
structure GraphNode where
  id : String
  rfType : String
  deriving DecidableEq, Repr

/-- `` id: `inv - ${ inv.id } ` `` -/
def invNodeId (i : String) : String := "inv - " ++ i ++ " "

/-- `invRows.rows.forEach(inv => nodes.push({ id: `inv - …`, type: 'input', … }))` -/
def invNodes (invs : List Investigation) : List GraphNode :=
  invs.map (fun i => ⟨invNodeId i.id, "input"⟩)

/-- The per-entity pushes of the `entityStats.forEach` loop: the loop body
pushes **two** nodes with the same id `entityId` — one early partial push
(`type: 'default'`, stats payload) and one full push (no `type` field,
priority payload) at the end of the body. -/
def entityNodes (stats : List (String × EntityStats)) : List GraphNode :=
  stats.flatMap (fun e => [⟨e.1, "default"⟩, ⟨e.1, ""⟩])

/-- The emitted node array: investigation nodes first, then the
per-entity pushes in map insertion order. -/
def nodesOf (invs : List Investigation) (stats : List (String × EntityStats)) :
    List GraphNode :=
  invNodes invs ++ entityNodes stats

/-- An edge as pushed onto the `edges` array (id, source, target). -/
structure GraphEdge where
  id : String
  source : String
  target : String
  deriving DecidableEq, Repr

/-- ```
stats.investigation_ids.forEach((invId) => {
  edges.push({ id: `e - ${ invId } -${ entityId } `,
               source: `inv - ${ invId } `, target: entityId, … });
});
``` -/
def edgesOf (stats : List (String × EntityStats)) : List GraphEdge :=
  stats.flatMap (fun e =>
    e.2.investigation_ids.map (fun invId =>
      ⟨"e - " ++ invId ++ " -" ++ e.1 ++ " ", invNodeId invId, e.1⟩))

/-! ## Pattern Detector (Phase 29)

`entityPatterns` is a second accumulator map over the same rows and the same
keys; its `priorityScore` field starts at 0 and is afterwards copied from
the entity nodes' `data.priority?.score || 0` (both nodes of an entity share
its id; the later full node carries the actual score, so the copy loop's
last write stores `priorityScoreOf` — modelled by `patternsOf`). -/

structure Pattern where
  freq7d : ℕ
  freqMonthly : ℕ
  priorityScore : ℤ
  degree : ℕ
  type : String
  label : String
  deriving DecidableEq, Repr

/-- The seed stored when a key first appears in the pattern loop; `degree`
is read from the completed `entityStats` map. -/
def seedPattern (stats : List (String × EntityStats)) (r : Row) : Pattern where
  freq7d := 0
  freqMonthly := 0
  priorityScore := 0
  degree :=
    match mfind stats (entIdOf r) with
    | some s => s.investigation_ids.length + (s.metadata.relations.getD []).length
    | none => 0
  type := r.type
  label := r.value

/-- ```
if (itemDate >= sevenDaysAgo) pattern.freq7d++;
if (itemDate >= thirtyDaysAgo) pattern.freqMonthly++;
``` with `sevenDaysAgo = nowTime - 7*oneDayMs`, `thirtyDaysAgo = nowTime - 30*oneDayMs`. -/
def updPattern (now : Int) (p : Pattern) (r : Row) : Pattern :=
  let itemDate := effDate now r
  let p1 := if itemDate ≥ now - 7 * oneDayMs then { p with freq7d := p.freq7d + 1 } else p
  if itemDate ≥ now - 30 * oneDayMs then { p1 with freqMonthly := p1.freqMonthly + 1 } else p1

/-- The pattern map right after the counting loop (all `priorityScore`
fields still 0). -/
def patterns0 (now : Int) (rows : List Row) : List (String × Pattern) :=
  mapFold entIdOf (seedPattern (entityStats now rows)) (updPattern now) rows

/-- The pattern map after the `nodes.forEach` copy loop installed each
entity's priority score. -/
noncomputable def patternsOf (now : Int) (rows : List Row) :
    List (String × Pattern) :=
  (patterns0 now rows).map (fun e =>
    (e.1,
      { e.2 with
        priorityScore :=
          match mfind (entityStats now rows) e.1 with
          | some s => priorityScoreOf now s
          | none => e.2.priorityScore }))

/-- `pattern.freqMonthly / 4; // Approx weekly average from monthly` -/
def monthlyAvgOf (p : Pattern) : ℚ :=
  (p.freqMonthly : ℚ) / 4

/-- JS `Math.round` on the exact rational values of the detector
(half-up: `⌊q + 1/2⌋`). -/
def jsRound (q : ℚ) : ℤ :=
  ⌊q + 1 / 2⌋

/-- One-decimal rendering of a non-negative ratio, standing in for JS
`Number.prototype.toFixed(1)` inside the reason string (the claims never
constrain this text). -/
def toFixed1 (q : ℚ) : String :=
  toString (jsRound (q * 10) / 10) ++ "." ++ toString (jsRound (q * 10) % 10)

structure Anomaly where
  label : String
  type : String
  spike_ratio : ℚ
  reason : String
  deriving DecidableEq, Repr

/-- The anomaly-branch body of `entityPatterns.forEach`:
either the "new entity" branch (`monthlyAvg === 0 && freq7d > 2`,
`spike_ratio: freq7d`) or the frequency-spike branch (`monthlyAvg > 0`,
`spikeRatio > 3 && freq7d > 1`, `spike_ratio: Math.round(spikeRatio*10)/10`). -/
def anomalyFor (p : Pattern) : Option Anomaly :=
  if monthlyAvgOf p = 0 ∧ p.freq7d > 2 then
    some
      { label := p.label, type := p.type, spike_ratio := (p.freq7d : ℚ),
        reason := "New entity with " ++ toString p.freq7d ++ " sightings this week" }
  else if monthlyAvgOf p > 0 then
    if (p.freq7d : ℚ) / monthlyAvgOf p > 3 ∧ p.freq7d > 1 then
      some
        { label := p.label, type := p.type,
          spike_ratio := (jsRound ((p.freq7d : ℚ) / monthlyAvgOf p * 10) : ℚ) / 10,
          reason := "Frequency spike: " ++ toFixed1 ((p.freq7d : ℚ) / monthlyAvgOf p) ++ "x normal" }
    else none
  else none

/-- The `anomalies` array built by the detector loop, in map order. -/
def anomaliesOf (ps : List (String × Pattern)) : List Anomaly :=
  ps.foldl
    (fun acc e =>
      match anomalyFor e.2 with
      | some a => acc ++ [a]
      | none => acc) []

/-! ## Key Entity Identification -/

/-- `const avgPriority = allPriorities.reduce((a,b) => a+b, 0) / (allPriorities.length || 1);` -/
def avgPriorityOf (ps : List (String × Pattern)) : ℚ :=
  ((ps.map (fun e => e.2.priorityScore)).sum : ℚ) /
    (if ps.length = 0 then 1 else (ps.length : ℚ))

/-- `const threshold = avgPriority + (100 - avgPriority) * 0.5;` -/
def thresholdOf (ps : List (String × Pattern)) : ℚ :=
  avgPriorityOf ps + (100 - avgPriorityOf ps) * (1 / 2)

/-- `const avgDegree = allDegrees.reduce((a,b) => a+b, 0) / (allDegrees.length || 1);` -/
def avgDegreeOf (ps : List (String × Pattern)) : ℚ :=
  ((ps.map (fun e => (e.2.degree : ℚ))).sum) /
    (if ps.length = 0 then 1 else (ps.length : ℚ))

/-- The key-entity test:
`pattern.priorityScore >= threshold && pattern.degree >= avgDegree &&
['person','organization'].includes(pattern.type)`. -/
def isKeyEntity (ps : List (String × Pattern)) (p : Pattern) : Prop :=
  thresholdOf ps ≤ (p.priorityScore : ℚ) ∧
  avgDegreeOf ps ≤ (p.degree : ℚ) ∧
  p.type ∈ ["person", "organization"]

instance isKeyEntityDecidable (ps : List (String × Pattern)) (p : Pattern) :
    Decidable (isKeyEntity ps p) := by
  unfold isKeyEntity
  infer_instance

structure TopEntity where
  label : String
  type : String
  priority : ℤ
  degree : ℕ
  deriving DecidableEq, Repr

/-- The `topEntities` array as pushed by the identification loop (before
sorting). -/
def topEntitiesRaw (ps : List (String × Pattern)) : List TopEntity :=
  ps.foldl
    (fun acc e =>
      if isKeyEntity ps e.2 then
        acc ++ [⟨e.2.label, e.2.type, e.2.priorityScore, e.2.degree⟩]
      else acc) []

/-- `topEntities.sort((a, b) => b.priority - a.priority)` — descending. -/
def priorityDesc (a b : TopEntity) : Prop := b.priority ≤ a.priority

instance : DecidableRel priorityDesc := fun a b =>
  inferInstanceAs (Decidable (b.priority ≤ a.priority))

instance : IsTotal TopEntity priorityDesc :=
  ⟨fun a b => le_total b.priority a.priority⟩

instance : IsTrans TopEntity priorityDesc :=
  ⟨fun _ _ _ h1 h2 => le_trans h2 h1⟩

/-- `anomalies.sort((a, b) => b.spike_ratio - a.spike_ratio)` — descending. -/
def spikeDesc (a b : Anomaly) : Prop := b.spike_ratio ≤ a.spike_ratio

instance : DecidableRel spikeDesc := fun a b =>
  inferInstanceAs (Decidable (b.spike_ratio ≤ a.spike_ratio))

instance : IsTotal Anomaly spikeDesc :=
  ⟨fun a b => le_total b.spike_ratio a.spike_ratio⟩

instance : IsTrans Anomaly spikeDesc :=
  ⟨fun _ _ _ h1 h2 => le_trans h2 h1⟩

/-! ## Graph Assembler: the returned `insights` object -/

structure InsightsStats where
  total_nodes : ℕ
  total_edges : ℕ
  avg_priority : ℤ
  avg_degree : ℚ
  deriving DecidableEq, Repr

structure Insights where
  top_entities : List TopEntity
  anomalies : List Anomaly
  stats : InsightsStats
  deriving DecidableEq, Repr

/-- ```
insights: {
  top_entities: topEntities.slice(0, 5),
  anomalies: anomalies.slice(0, 5),
  stats: { total_nodes: nodes.length, total_edges: edges.length,
           avg_priority: Math.round(avgPriority),
           avg_degree: Math.round(avgDegree * 10) / 10 } }
``` after the two descending sorts (V8 `Array.sort` is stable; modelled by
a stable insertion sort). -/
def insightsOf (nodes : List GraphNode) (edges : List GraphEdge)
    (ps : List (String × Pattern)) : Insights where
  top_entities := (List.insertionSort priorityDesc (topEntitiesRaw ps)).take 5
  anomalies := (List.insertionSort spikeDesc (anomaliesOf ps)).take 5
  stats :=
    { total_nodes := nodes.length
      total_edges := edges.length
      avg_priority := jsRound (avgPriorityOf ps)
      avg_degree := (jsRound (avgDegreeOf ps * 10) : ℚ) / 10 }

/-- The full `/api/graph` response. -/
structure GraphResponse where
  nodes : List GraphNode
  edges : List GraphEdge
  insights : Insights

/-- The whole handler: SQL filter, aggregation, node/edge assembly,
pattern counting, score copy, detection, insights. -/
noncomputable def apiGraph (now : Int) (invs : List Investigation)
    (rawRows : List Row) : GraphResponse :=
  let rows := dbFilter rawRows
  let stats := entityStats now rows
  let nodes := nodesOf invs stats
  let edges := edgesOf stats
  let ps := patternsOf now rows
  { nodes := nodes, edges := edges, insights := insightsOf nodes edges ps }

/-! ## Helper lemmas about the detector stages -/

theorem anomalyFor_set_priority (p : Pattern) (x : ℤ) :
    anomalyFor { p with priorityScore := x } = anomalyFor p := by
  cases p
  rfl

/-- The anomaly pass only reads `freq7d`/`freqMonthly`/`label`/`type`, so the
score-copy loop does not change the anomaly list. -/
theorem anomaliesOf_patternsOf (now : Int) (rows : List Row) :
    anomaliesOf (patternsOf now rows) = anomaliesOf (patterns0 now rows) := by
  unfold anomaliesOf patternsOf
  rw [List.foldl_map]
  apply List.foldl_ext
  intro acc e _
  have he : anomalyFor
      { e.2 with
        priorityScore :=
          match mfind (entityStats now rows) e.1 with
          | some s => priorityScoreOf now s
          | none => e.2.priorityScore } = anomalyFor e.2 :=
    anomalyFor_set_priority e.2 _
  rw [he]

/-- The score-copy loop does not change the degree average either. -/
theorem avgDegreeOf_patternsOf (now : Int) (rows : List Row) :
    avgDegreeOf (patternsOf now rows) = avgDegreeOf (patterns0 now rows) := by
  unfold avgDegreeOf patternsOf
  rw [List.map_map, List.length_map]
  rfl

/-- A `mapFold` is empty exactly when there were no rows. -/
theorem mapFold_eq_nil_iff {σ : Type} (key : Row → String) (seed : Row → σ)
    (upd : σ → Row → σ) (l : List Row) :
    mapFold key seed upd l = [] ↔ l = [] := by
  constructor
  · intro h
    cases hl : l with
    | nil => rfl
    | cons r t =>
      exfalso
      have hfind := mfind_mapFold key seed upd l (key r)
      rw [h] at hfind
      have hr : r ∈ l.filter (fun x => key x = key r) := by
        rw [List.mem_filter]
        exact ⟨hl ▸ List.mem_cons_self r t, by simp⟩
      cases hf : l.filter (fun x => key x = key r) with
      | nil => rw [hf] at hr; simp at hr
      | cons a b => rw [hf] at hfind; simp [mfind] at hfind
  · intro h
    rw [h]
    rfl

/-! ## Score-bound lemmas -/

theorem degreeScore_bounds (d : ℕ) : 0 ≤ degreeScore d ∧ degreeScore d ≤ 100 := by
  unfold degreeScore
  refine ⟨le_min (by norm_num) ?_, min_le_left _ _⟩
  have h : 0 ≤ Real.logb 2 (max 1 (d : ℝ)) :=
    Real.logb_nonneg (by norm_num) (le_max_left _ _)
  nlinarith

theorem freqScore_bounds (f : ℕ) : 0 ≤ freqScore f ∧ freqScore f ≤ 100 := by
  unfold freqScore
  refine ⟨le_min (by norm_num) ?_, min_le_left _ _⟩
  positivity

theorem crossInvScore_bounds (n : ℕ) (hn : 1 ≤ n) :
    0 ≤ crossInvScore n ∧ crossInvScore n ≤ 100 := by
  unfold crossInvScore
  refine ⟨le_min (by norm_num) ?_, min_le_left _ _⟩
  have : (1 : ℝ) ≤ (n : ℝ) := by exact_mod_cast hn
  nlinarith

theorem sentimentScore_bounds (q : ℚ) :
    0 ≤ sentimentScore q ∧ sentimentScore q ≤ 100 := by
  unfold sentimentScore
  exact ⟨le_max_left _ _, max_le (by norm_num) (min_le_left _ _)⟩

theorem freshnessScore_bounds (cat : String) :
    0 ≤ freshnessScore cat ∧ freshnessScore cat ≤ 100 := by
  unfold freshnessScore
  split_ifs <;> norm_num

theorem round_bounds {x : ℝ} (h0 : 0 ≤ x) (h1 : x ≤ 100) :
    0 ≤ round x ∧ round x ≤ 100 := by
  rw [round_eq]
  constructor
  · exact Int.le_floor.mpr (by push_cast; linarith)
  · have h2 : ⌊x + 1 / 2⌋ < (101 : ℤ) := Int.floor_lt.mpr (by push_cast; linarith)
    omega

theorem priorityRaw_bounds (now : Int) (s : EntityStats)
    (hn : 1 ≤ s.investigation_ids.length) :
    0 ≤ priorityRaw now s ∧ priorityRaw now s ≤ 100 := by
  unfold priorityRaw
  obtain ⟨d0, d1⟩ := degreeScore_bounds (degreeOf s)
  obtain ⟨f0, f1⟩ := freqScore_bounds s.frequency
  obtain ⟨c0, c1⟩ := crossInvScore_bounds s.investigation_ids.length hn
  obtain ⟨s0, s1⟩ := sentimentScore_bounds (sentimentOf s)
  obtain ⟨r0, r1⟩ := freshnessScore_bounds (agingCategory now s.last_seen)
  constructor <;> nlinarith

/-! ## Helper lemmas for key entities, the aggregation key, and pattern counts -/

theorem mem_topEntitiesRaw_aux (ps l : List (String × Pattern))
    (acc : List TopEntity) (e : TopEntity) :
    (e ∈ l.foldl
        (fun acc q =>
          if isKeyEntity ps q.2 then
            acc ++ [⟨q.2.label, q.2.type, q.2.priorityScore, q.2.degree⟩]
          else acc) acc) ↔
      e ∈ acc ∨ ∃ q ∈ l, isKeyEntity ps q.2 ∧
        e = ⟨q.2.label, q.2.type, q.2.priorityScore, q.2.degree⟩ := by
  induction l generalizing acc with
  | nil => simp
  | cons q t ih =>
    simp only [List.foldl_cons]
    rw [ih]
    by_cases hq : isKeyEntity ps q.2
    · simp only [if_pos hq, List.mem_append, List.mem_singleton]
      constructor
      · rintro ((he | he) | ⟨q', hq', hk, he⟩)
        · exact Or.inl he
        · exact Or.inr ⟨q, List.mem_cons_self _ _, hq, he⟩
        · exact Or.inr ⟨q', List.mem_cons_of_mem _ hq', hk, he⟩
      · rintro (he | ⟨q', hq', hk, he⟩)
        · exact Or.inl (Or.inl he)
        · rcases List.mem_cons.mp hq' with rfl | hq'
          · exact Or.inl (Or.inr he)
          · exact Or.inr ⟨q', hq', hk, he⟩
    · simp only [if_neg hq]
      constructor
      · rintro (he | ⟨q', hq', hk, he⟩)
        · exact Or.inl he
        · exact Or.inr ⟨q', List.mem_cons_of_mem _ hq', hk, he⟩
      · rintro (he | ⟨q', hq', hk, he⟩)
        · exact Or.inl he
        · rcases List.mem_cons.mp hq' with rfl | hq'
          · exact absurd hk hq
          · exact Or.inr ⟨q', hq', hk, he⟩

theorem mem_topEntitiesRaw (ps : List (String × Pattern)) (e : TopEntity) :
    e ∈ topEntitiesRaw ps ↔
      ∃ q ∈ ps, isKeyEntity ps q.2 ∧
        e = ⟨q.2.label, q.2.type, q.2.priorityScore, q.2.degree⟩ := by
  unfold topEntitiesRaw
  rw [mem_topEntitiesRaw_aux]
  simp

/-- Splitting a character list at a marker character absent from both
prefixes is unambiguous. -/
theorem space_sep_inj :
    ∀ (a b r1 r2 : List Char), ' ' ∉ a → ' ' ∉ b →
      a ++ ' ' :: r1 = b ++ ' ' :: r2 → a = b ∧ r1 = r2 := by
  intro a
  induction a with
  | nil =>
    intro b r1 r2 _ hb h
    cases b with
    | nil => simpa using h
    | cons y bt =>
      exfalso
      simp only [List.nil_append, List.cons_append, List.cons.injEq] at h
      exact hb (h.1 ▸ List.mem_cons_self _ _)
  | cons x at' ih =>
    intro b r1 r2 ha hb h
    cases b with
    | nil =>
      exfalso
      simp only [List.cons_append, List.nil_append, List.cons.injEq] at h
      exact ha (h.1 ▸ List.mem_cons_self _ _)
    | cons y bt =>
      simp only [List.cons_append, List.cons.injEq] at h
      have ha' : ' ' ∉ at' := fun hm => ha (List.mem_cons_of_mem _ hm)
      have hb' : ' ' ∉ bt := fun hm => hb (List.mem_cons_of_mem _ hm)
      obtain ⟨heq, hr⟩ := ih bt r1 r2 ha' hb' h.2
      exact ⟨by rw [h.1, heq], hr⟩

theorem entIdOf_data (t v : String) :
    ("ent - " ++ t ++ " -" ++ v ++ " ").data =
      'e' :: 'n' :: 't' :: ' ' :: '-' :: ' ' ::
        (t.data ++ (' ' :: ('-' :: (v.data ++ [' '])))) := by
  simp [String.data_append, List.append_assoc]

/-- For rows whose `type` contains no space character (true of every member
of the fixed entity-type enumeration), the aggregation key is injective in
the `(type, normalizedValue)` pair. -/
theorem entIdOf_inj (r1 r2 : Row) (h1 : ' ' ∉ r1.type.data)
    (h2 : ' ' ∉ r2.type.data) :
    entIdOf r1 = entIdOf r2 ↔
      (r1.type = r2.type ∧
        r1.normalized_value.getD "" = r2.normalized_value.getD "") := by
  constructor
  · intro h
    have hd := congrArg String.data h
    unfold entIdOf at hd
    rw [entIdOf_data, entIdOf_data] at hd
    simp only [List.cons.injEq, true_and] at hd
    obtain ⟨ht, hrest⟩ := space_sep_inj _ _ _ _ h1 h2 hd
    simp only [List.cons.injEq, true_and] at hrest
    have hv := List.append_cancel_right hrest
    exact ⟨String.ext ht, String.ext hv⟩
  · rintro ⟨ht, hv⟩
    unfold entIdOf
    rw [ht, hv]

theorem updPattern_eq (now : Int) (p : Pattern) (r : Row) :
    updPattern now p r =
      { p with
        freq7d := p.freq7d + (if effDate now r ≥ now - 7 * oneDayMs then 1 else 0)
        freqMonthly :=
          p.freqMonthly + (if effDate now r ≥ now - 30 * oneDayMs then 1 else 0) } := by
  unfold updPattern
  by_cases h7 : effDate now r ≥ now - 7 * oneDayMs <;>
    by_cases h30 : effDate now r ≥ now - 30 * oneDayMs <;>
      simp [h7, h30]

theorem updPattern_freq7d_le (now : Int) (p : Pattern) (r : Row)
    (hp : p.freq7d ≤ p.freqMonthly) :
    (updPattern now p r).freq7d ≤ (updPattern now p r).freqMonthly := by
  rw [updPattern_eq]
  by_cases h7 : effDate now r ≥ now - 7 * oneDayMs
  · have h30 : effDate now r ≥ now - 30 * oneDayMs := by
      unfold oneDayMs at h7 ⊢
      omega
    simp [h7, h30]
    omega
  · by_cases h30 : effDate now r ≥ now - 30 * oneDayMs <;> simp [h7, h30] <;> omega

theorem foldl_updPattern_freq7d_le (now : Int) (t : List Row) (p : Pattern)
    (hp : p.freq7d ≤ p.freqMonthly) :
    (t.foldl (updPattern now) p).freq7d ≤ (t.foldl (updPattern now) p).freqMonthly := by
  induction t generalizing p with
  | nil => exact hp
  | cons r t ih =>
    simp only [List.foldl_cons]
    exact ih _ (updPattern_freq7d_le now p r hp)

/-- Invariant of the pattern-counting loop: the 7-day count never exceeds
the 30-day count (a row inside the 7-day window is inside the 30-day
window). -/
theorem patterns0_freq7d_le (now : Int) (rows : List Row) (k : String)
    (p : Pattern) (h : mfind (patterns0 now rows) k = some p) :
    p.freq7d ≤ p.freqMonthly := by
  unfold patterns0 at h
  rw [mfind_mapFold] at h
  cases hf : rows.filter (fun r => entIdOf r = k) with
  | nil => rw [hf] at h; simp at h
  | cons r0 t =>
    rw [hf] at h
    have hp : p = t.foldl (updPattern now) (updPattern now (seedPattern (entityStats now rows) r0) r0) :=
      (Option.some.inj h).symm
    rw [hp]
    apply foldl_updPattern_freq7d_le
    apply updPattern_freq7d_le
    exact le_refl _

theorem entityStats_invIds_length (now : Int) (rows : List Row) (k : String)
    (s : EntityStats) (h : mfind (entityStats now rows) k = some s) :
    1 ≤ s.investigation_ids.length := by
  obtain ⟨r0, t, _, _, _, _, _, _, _, _, hne, _, _, _⟩ :=
    entityStats_spec now rows k s h
  cases hl : s.investigation_ids with
  | nil => exact absurd hl hne
  | cons a b => simp [hl]

/-! # Claims -/

/-- C4 — Temporal classification: with `ageDays = (now - lastSeen) in days`,
the aging category is FRESH iff `ageDays ≤ 7`, RECENT iff `7 < ageDays ≤ 90`,
STALE iff `90 < ageDays ≤ 365`, and ANCIENT otherwise; boundaries are
inclusive on the lower category (exactly 7 days is FRESH, exactly 90 days is
RECENT, and 7.0001 days — 604808640 ms — is already RECENT). -/
theorem c4_temporal_classification (now last : Int) :
    (agingCategory now last = "FRESH" ↔ ageDays now last ≤ 7) ∧
    (agingCategory now last = "RECENT" ↔
      7 < ageDays now last ∧ ageDays now last ≤ 90) ∧
    (agingCategory now last = "STALE" ↔
      90 < ageDays now last ∧ ageDays now last ≤ 365) ∧
    (agingCategory now last = "ANCIENT" ↔ 365 < ageDays now last) ∧
    agingCategory (7 * oneDayMs) 0 = "FRESH" ∧
    agingCategory (90 * oneDayMs) 0 = "RECENT" ∧
    agingCategory (365 * oneDayMs) 0 = "STALE" ∧
    agingCategory 604808640 0 = "RECENT" := by
  refine ⟨?_, ?_, ?_, ?_,
    by norm_num [agingCategory, ageDays, oneDayMs],
    by norm_num [agingCategory, ageDays, oneDayMs],
    by norm_num [agingCategory, ageDays, oneDayMs],
    by norm_num [agingCategory, ageDays, oneDayMs]⟩ <;>
    unfold agingCategory <;>
    by_cases h1 : ageDays now last ≤ 7 <;>
    by_cases h2 : ageDays now last ≤ 90 <;>
    by_cases h3 : ageDays now last ≤ 365 <;>
    simp [h1, h2, h3] <;> linarith

/-- C10 — Implicit invariant: for every entity pattern produced from a run,
`freq7d ≤ freqMonthly` (a row in the 7-day window is also in the 30-day
window), hence `monthlyAvg = freqMonthly / 4` vanishes only when `freq7d`
is 0, so the "new entity with sudden activity" branch
(`monthlyAvg == 0 && freq7d > 2`) can never fire on derived patterns. -/
theorem c10_new_entity_branch_unreachable (now : Int) (rows : List Row)
    (k : String) (p : Pattern) (h : mfind (patterns0 now rows) k = some p) :
    p.freq7d ≤ p.freqMonthly ∧
    (monthlyAvgOf p = 0 → p.freq7d = 0) ∧
    ¬ (monthlyAvgOf p = 0 ∧ 2 < p.freq7d) := by
  have hle := patterns0_freq7d_le now rows k p h
  have hz : monthlyAvgOf p = 0 → p.freq7d = 0 := by
    intro hm
    unfold monthlyAvgOf at hm
    rcases div_eq_zero_iff.mp hm with hm' | hm'
    · have : p.freqMonthly = 0 := by exact_mod_cast hm'
      omega
    · norm_num at hm'
  refine ⟨hle, hz, ?_⟩
  rintro ⟨hm, h2⟩
  have := hz hm
  omega

def c10rows : List Row :=
  [⟨"1", "i1", "ip", "X", some "x", some 0, none, none⟩]

def c10pat : Pattern := ⟨1, 1, 0, 1, "ip", "X"⟩

/-- C10 witness: the theorem applied to a concrete one-row run. -/
theorem c10_witness :
    mfind (patterns0 0 c10rows) "ent - ip -x " = some c10pat ∧
    (c10pat.freq7d ≤ c10pat.freqMonthly ∧
      (monthlyAvgOf c10pat = 0 → c10pat.freq7d = 0) ∧
      ¬ (monthlyAvgOf c10pat = 0 ∧ 2 < c10pat.freq7d)) :=
  ⟨by decide, c10_new_entity_branch_unreachable 0 c10rows "ent - ip -x " c10pat (by decide)⟩

/-- C2 — Score boundedness: for every entity produced by a run, the
composite `priorityScore` is an integer in `[0, 100]`, each of the five
rounded sub-scores of the breakdown is in `[0, 100]`, and the composite is
exactly `round(0.25*degree + 0.20*frequency + 0.25*crossInvestigation +
0.15*sentiment + 0.15*freshness)` on the raw sub-scores. -/
theorem c2_score_boundedness (now : Int) (rows : List Row) (k : String)
    (s : EntityStats) (h : mfind (entityStats now rows) k = some s) :
    (0 ≤ priorityScoreOf now s ∧ priorityScoreOf now s ≤ 100) ∧
    (0 ≤ (breakdownOf now s).degree ∧ (breakdownOf now s).degree ≤ 100) ∧
    (0 ≤ (breakdownOf now s).frequency ∧
      (breakdownOf now s).frequency ≤ 100) ∧
    (0 ≤ (breakdownOf now s).cross_investigation ∧
      (breakdownOf now s).cross_investigation ≤ 100) ∧
    (0 ≤ (breakdownOf now s).sentiment ∧
      (breakdownOf now s).sentiment ≤ 100) ∧
    (0 ≤ (breakdownOf now s).freshness ∧
      (breakdownOf now s).freshness ≤ 100) ∧
    priorityScoreOf now s =
      round (0.25 * degreeScore (degreeOf s) + 0.20 * freqScore s.frequency +
        0.25 * crossInvScore s.investigation_ids.length +
        0.15 * sentimentScore (sentimentOf s) +
        0.15 * freshnessScore (agingCategory now s.last_seen)) := by
  have hn := entityStats_invIds_length now rows k s h
  obtain ⟨hr0, hr1⟩ := priorityRaw_bounds now s hn
  refine ⟨?_, ?_, ?_, ?_, ?_, ?_, rfl⟩
  · exact round_bounds hr0 hr1
  · exact round_bounds (degreeScore_bounds (degreeOf s)).1
      (degreeScore_bounds (degreeOf s)).2
  · exact round_bounds (freqScore_bounds s.frequency).1
      (freqScore_bounds s.frequency).2
  · exact round_bounds (crossInvScore_bounds s.investigation_ids.length hn).1
      (crossInvScore_bounds s.investigation_ids.length hn).2
  · exact round_bounds (sentimentScore_bounds (sentimentOf s)).1
      (sentimentScore_bounds (sentimentOf s)).2
  · exact round_bounds
      (freshnessScore_bounds (agingCategory now s.last_seen)).1
      (freshnessScore_bounds (agingCategory now s.last_seen)).2

def c2row : Row := ⟨"1", "i1", "ip", "X", some "x", some 0, some "nlp", none⟩

def c2stats : EntityStats := ⟨"ip", "X", "x", 0, 0, 1, ["nlp"], ["i1"], {}⟩

/-- C2 witness: the theorem applied to a concrete one-row run. -/
theorem c2_witness :
    mfind (entityStats 0 [c2row]) "ent - ip -x " = some c2stats ∧
    ((0 ≤ priorityScoreOf 0 c2stats ∧ priorityScoreOf 0 c2stats ≤ 100) ∧
      (0 ≤ (breakdownOf 0 c2stats).degree ∧
        (breakdownOf 0 c2stats).degree ≤ 100) ∧
      (0 ≤ (breakdownOf 0 c2stats).frequency ∧
        (breakdownOf 0 c2stats).frequency ≤ 100) ∧
      (0 ≤ (breakdownOf 0 c2stats).cross_investigation ∧
        (breakdownOf 0 c2stats).cross_investigation ≤ 100) ∧
      (0 ≤ (breakdownOf 0 c2stats).sentiment ∧
        (breakdownOf 0 c2stats).sentiment ≤ 100) ∧
      (0 ≤ (breakdownOf 0 c2stats).freshness ∧
        (breakdownOf 0 c2stats).freshness ≤ 100) ∧
      priorityScoreOf 0 c2stats =
        round (0.25 * degreeScore (degreeOf c2stats) +
          0.20 * freqScore c2stats.frequency +
          0.25 * crossInvScore c2stats.investigation_ids.length +
          0.15 * sentimentScore (sentimentOf c2stats) +
          0.15 * freshnessScore (agingCategory 0 c2stats.last_seen))) :=
  ⟨by decide, c2_score_boundedness 0 [c2row] "ent - ip -x " c2stats (by decide)⟩

/-! ### C1: the spec's "new entity" scenario -/

def c1now : Int := 100 * oneDayMs

def c1Row (n : String) (ts : Int) : Row :=
  ⟨n, "i1", "ip", "1.2.3.4", some "1.2.3.4", some ts, some "nlp", none⟩

/-- Ten observations of one `ip` entity: 3 one day ago (inside the 7-day
window), 7 forty days ago (outside the 30-day window) — the spec's
scenario of "3 within the last 7 days, 0 in the preceding 23 days". -/
def c1rows : List Row :=
  [c1Row "a" (99 * oneDayMs), c1Row "b" (99 * oneDayMs), c1Row "c" (99 * oneDayMs),
   c1Row "d" (60 * oneDayMs), c1Row "e" (60 * oneDayMs), c1Row "f" (60 * oneDayMs),
   c1Row "g" (60 * oneDayMs), c1Row "h" (60 * oneDayMs), c1Row "i" (60 * oneDayMs),
   c1Row "j" (60 * oneDayMs)]

def c1pattern : Pattern := ⟨3, 3, 0, 1, "ip", "1.2.3.4"⟩

def c1anomaly : Anomaly := ⟨"1.2.3.4", "ip", 4, "Frequency spike: 4.0x normal"⟩

theorem c1_patterns_eval :
    patterns0 c1now (dbFilter c1rows) = [("ent - ip -1.2.3.4 ", c1pattern)] := by
  decide

theorem c1_anomalyFor_eval : anomalyFor c1pattern = some c1anomaly := by
  have h1 : monthlyAvgOf c1pattern = 3 / 4 := by norm_num [monthlyAvgOf, c1pattern]
  have h2 : ((c1pattern.freq7d : ℚ)) / monthlyAvgOf c1pattern = 4 := by
    rw [h1]; norm_num [c1pattern]
  have h4 : toFixed1 (4 : ℚ) = "4.0" := by
    have h3 : jsRound ((4 : ℚ) * 10) = 40 := by
      norm_num [jsRound, Int.floor_eq_iff]
    unfold toFixed1
    rw [h3]
    decide
  have h5 : jsRound (40 : ℚ) = 40 := by
    norm_num [jsRound, Int.floor_eq_iff]
  unfold anomalyFor
  rw [h2, h1]
  norm_num [c1pattern, c1anomaly, h4]
  exact ⟨by rw [h5]; norm_num, by decide⟩

theorem c1_eval : anomaliesOf (patternsOf c1now (dbFilter c1rows)) = [c1anomaly] := by
  rw [anomaliesOf_patternsOf, c1_patterns_eval]
  unfold anomaliesOf
  simp [c1_anomalyFor_eval]

/-- C1 counterexample: in the claim's own scenario (3 observations in the
last 7 days, 0 in the preceding 23 days) the derived pattern has
`freq7d = 3` but `monthlyAvg = freqMonthly / 4 = 3/4 ≠ 0` (the 3 recent
observations are inside the 30-day window too), so the claim's asserted
"monthlyAvg = 0 and a new-entity anomaly with spikeRatio = 3" is false: the
detector emits a frequency-spike anomaly with spike_ratio 4 instead. -/
theorem c1_counterexample :
    mfind (patterns0 c1now (dbFilter c1rows)) "ent - ip -1.2.3.4 " =
      some c1pattern ∧
    c1pattern.freq7d = 3 ∧
    monthlyAvgOf c1pattern ≠ 0 ∧
    anomaliesOf (patternsOf c1now (dbFilter c1rows)) = [c1anomaly] ∧
    c1anomaly.spike_ratio = 4 ∧
    c1anomaly.reason = "Frequency spike: 4.0x normal" := by
  refine ⟨by decide, by decide, ?_, c1_eval, by decide, by decide⟩
  norm_num [monthlyAvgOf, c1pattern]

/-- C1 amended — the per-pattern rule reads exactly as the claim states it
(`monthlyAvg == 0 && freq7d > 2` yields a new-entity anomaly with
`spikeRatio = freq7d`), but in the claim's scenario the derived pattern has
`freq7d = 3`, `freqMonthly = 3`, `monthlyAvg = 3/4 ≠ 0`, and the flagged
anomaly is the frequency-spike one with `spikeRatio = 4`. -/
theorem c1_amended :
    (∀ p : Pattern, monthlyAvgOf p = 0 → 2 < p.freq7d →
      anomalyFor p = some
        { label := p.label, type := p.type, spike_ratio := (p.freq7d : ℚ)
          reason := "New entity with " ++ toString p.freq7d ++
            " sightings this week" }) ∧
    mfind (patterns0 c1now (dbFilter c1rows)) "ent - ip -1.2.3.4 " =
      some c1pattern ∧
    c1pattern.freq7d = 3 ∧ c1pattern.freqMonthly = 3 ∧
    monthlyAvgOf c1pattern = 3 / 4 ∧
    anomaliesOf (patternsOf c1now (dbFilter c1rows)) = [c1anomaly] ∧
    c1anomaly.spike_ratio = 4 := by
  refine ⟨?_, by decide, by decide, by decide,
    by norm_num [monthlyAvgOf, c1pattern], c1_eval, by decide⟩
  intro p hm h2
  unfold anomalyFor
  rw [if_pos ⟨hm, h2⟩]

def c1wpat : Pattern := ⟨3, 0, 0, 1, "ip", "X"⟩

/-- C1 witness: the amended rule applied to a concrete pattern record with
`freqMonthly = 0` and `freq7d = 3`. -/
theorem c1_witness :
    monthlyAvgOf c1wpat = 0 ∧ 2 < c1wpat.freq7d ∧
    anomalyFor c1wpat = some
      { label := c1wpat.label, type := c1wpat.type,
        spike_ratio := (c1wpat.freq7d : ℚ)
        reason := "New entity with " ++ toString c1wpat.freq7d ++
          " sightings this week" } := by
  have h0 : monthlyAvgOf c1wpat = 0 := by norm_num [monthlyAvgOf, c1wpat]
  exact ⟨h0, by decide, c1_amended.1 c1wpat h0 (by decide)⟩

/-! ### C3: the aggregation key -/

/-- Modelled from the spec: the grouping key the spec prescribes,
`entityType + "\u0000" + normalizedValue`, used only to compare against the
implemented key. -/
def entIdSpec (r : Row) : String :=
  r.type ++ "\u0000" ++ r.normalized_value.getD ""

def c3rowNul : Row := ⟨"1", "i1", "ip", "X", some "x", some 0, none, none⟩

def c3rowA : Row := ⟨"1", "i1", "a -b", "VA", some "c", some 0, none, none⟩

def c3rowB : Row := ⟨"2", "i2", "a", "VB", some "b -c", some 0, none, none⟩

def c3rowC : Row := ⟨"3", "i1", "ip", "Y", some "y", some 0, none, none⟩

/-- C3 counterexample: the implemented key is
`"ent - " ++ type ++ " -" ++ normalizedValue ++ " "`, not
`type ++ "\u0000" ++ normalizedValue`; and under the implemented key the
distinct pairs `("a -b", "c")` and `("a", "b -c")` collide, so the two
observations aggregate into a single canonical entity of frequency 2. -/
theorem c3_counterexample :
    entIdOf c3rowNul ≠ entIdSpec c3rowNul ∧
    (c3rowA.type, c3rowA.normalized_value) ≠
      (c3rowB.type, c3rowB.normalized_value) ∧
    entIdOf c3rowA = entIdOf c3rowB ∧
    (entityStats 0 (dbFilter [c3rowA, c3rowB])).length = 1 ∧
    (mfind (entityStats 0 (dbFilter [c3rowA, c3rowB])) (entIdOf c3rowA)).map
      (fun s => s.frequency) = some 2 :=
  ⟨by decide, by decide, by decide, by decide, by decide⟩

/-- C3 amended — the grouping key is
`"ent - " ++ entityType ++ " -" ++ normalizedValue ++ " "`; observations
agreeing on the `(entityType, normalizedValue)` pair always share a key,
and for entity types containing no space character (every member of the
fixed type enumeration) the key is injective in the pair; distinct pairs
can collide only through space-carrying types, as in the counterexample. -/
theorem c3_amended :
    (∀ r : Row, entIdOf r =
      "ent - " ++ r.type ++ " -" ++ r.normalized_value.getD "" ++ " ") ∧
    (∀ r1 r2 : Row, ' ' ∉ r1.type.data → ' ' ∉ r2.type.data →
      (entIdOf r1 = entIdOf r2 ↔
        (r1.type = r2.type ∧
          r1.normalized_value.getD "" = r2.normalized_value.getD ""))) :=
  ⟨fun _ => rfl, entIdOf_inj⟩

/-- C3 witness: the amended key-injectivity applied to two concrete rows
with the space-free type `"ip"`. -/
theorem c3_witness :
    (' ' ∉ c3rowNul.type.data) ∧ (' ' ∉ c3rowC.type.data) ∧
    (entIdOf c3rowNul = entIdOf c3rowC ↔
      (c3rowNul.type = c3rowC.type ∧
        c3rowNul.normalized_value.getD "" = c3rowC.normalized_value.getD "")) :=
  ⟨by decide, by decide, c3_amended.2 c3rowNul c3rowC (by decide) (by decide)⟩

/-! ### C5: aggregation input filtering and per-key statistics -/

def c5row : Row := ⟨"1", "i1", "ip", "X", some "", some 0, none, none⟩

def c5rowMissing : Row := ⟨"2", "i1", "ip", "Y", none, some 0, none, none⟩

def c5stats : EntityStats := ⟨"ip", "X", "", 0, 0, 1, [], ["i1"], {}⟩

/-- C5 counterexample: an observation whose `normalized_value` is present
but empty is **not** skipped — it passes the SQL `IS NOT NULL` filter and
aggregates into a canonical entity of frequency 1 (whereas the NULL row is
dropped), contradicting the claim's "empty or missing normalizedValue are
skipped". -/
theorem c5_counterexample :
    dbFilter [c5row, c5rowMissing] = [c5row] ∧
    mfind (entityStats 0 (dbFilter [c5row, c5rowMissing])) "ent - ip - " =
      some c5stats ∧
    c5stats.frequency = 1 :=
  ⟨by decide, by decide, by decide⟩

/-- C5 amended — observations with a missing (NULL) `normalized_value` are
skipped (empty strings are retained); for each remaining key the canonical
entity's `frequency` equals the number of contributing observations
(duplicates across investigations all count), `first_seen`/`last_seen` are
the min/max of the contributing observations' effective `created_at`
(`created_at || now`), and the representative `value` is the raw value of
the first contributing observation in iteration order. -/
theorem c5_amended (now : Int) (rows : List Row) (k : String)
    (s : EntityStats)
    (h : mfind (entityStats now (dbFilter rows)) k = some s) :
    (∀ r ∈ rows, r.normalized_value = none →
      r ∉ contributing (dbFilter rows) k) ∧
    ∃ r0 t, contributing (dbFilter rows) k = r0 :: t ∧
      s.value = r0.value ∧
      s.frequency = (contributing (dbFilter rows) k).length ∧
      (∀ r ∈ contributing (dbFilter rows) k,
        s.first_seen ≤ effDate now r ∧ effDate now r ≤ s.last_seen) ∧
      (∃ r ∈ contributing (dbFilter rows) k, s.first_seen = effDate now r) ∧
      (∃ r ∈ contributing (dbFilter rows) k, s.last_seen = effDate now r) := by
  constructor
  · intro r _ hnone hmem
    unfold contributing at hmem
    have h1 := (List.mem_filter.mp hmem).1
    unfold dbFilter at h1
    have h2 := (List.mem_filter.mp h1).2
    simp [hnone] at h2
  · obtain ⟨r0, t, hc, hv, _, hf, hb, he1, he2, _, _, _, _, _⟩ :=
      entityStats_spec now (dbFilter rows) k s h
    exact ⟨r0, t, hc, hv, hf, hb, he1, he2⟩

/-- C5 witness: the amended statement applied to a concrete two-row run
(one empty-string and one NULL normalized value). -/
theorem c5_witness :
    mfind (entityStats 0 (dbFilter [c5row, c5rowMissing])) "ent - ip - " =
      some c5stats ∧
    ((∀ r ∈ [c5row, c5rowMissing], r.normalized_value = none →
      r ∉ contributing (dbFilter [c5row, c5rowMissing]) "ent - ip - ") ∧
    ∃ r0 t,
      contributing (dbFilter [c5row, c5rowMissing]) "ent - ip - " = r0 :: t ∧
      c5stats.value = r0.value ∧
      c5stats.frequency =
        (contributing (dbFilter [c5row, c5rowMissing]) "ent - ip - ").length ∧
      (∀ r ∈ contributing (dbFilter [c5row, c5rowMissing]) "ent - ip - ",
        c5stats.first_seen ≤ effDate 0 r ∧ effDate 0 r ≤ c5stats.last_seen) ∧
      (∃ r ∈ contributing (dbFilter [c5row, c5rowMissing]) "ent - ip - ",
        c5stats.first_seen = effDate 0 r) ∧
      (∃ r ∈ contributing (dbFilter [c5row, c5rowMissing]) "ent - ip - ",
        c5stats.last_seen = effDate 0 r)) :=
  ⟨by decide,
    c5_amended 0 [c5row, c5rowMissing] "ent - ip - " c5stats (by decide)⟩

/-! ### C8: merged metadata -/

def c8r1 : Row :=
  ⟨"1", "i1", "ip", "X", some "x", some 0, some "nlp",
    some { relations := some [("a", "b")], average_sentiment := some 0,
           ttps := some ["T1"] }⟩

def c8r2 : Row :=
  ⟨"2", "i1", "ip", "X", some "x", some 5, some "nlp",
    some { relations := some [("c", "d")], average_sentiment := some 1,
           ttps := some ["T2"] }⟩

/-- C8 counterexample: with two contributing observations carrying
relations `[("a","b")]` and `[("c","d")]`, sentiments 0 and 1, and ttps
`["T1"]` and `["T2"]`, the merged metadata is
`relations = [("a","b"),("a","b"),("c","d")]` (the first observation's
relations are doubled — not the plain concatenation), `sentiment = some 0`
(the first observation's value, not the average `1/2`), and
`ttps = some ["T1"]` (no union is computed). -/
theorem c8_counterexample :
    (mfind (entityStats 100 (dbFilter [c8r1, c8r2])) "ent - ip -x ").map
        (fun s => s.metadata) =
      some { relations := some [("a", "b"), ("a", "b"), ("c", "d")],
             average_sentiment := some 0, ttps := some ["T1"] } ∧
    ([("a", "b"), ("a", "b"), ("c", "d")] : List RelEntry) ≠
      [("a", "b"), ("c", "d")] ∧
    some (0 : ℚ) ≠ some ((0 + 1) / 2 : ℚ) ∧
    (some ["T1"] : Option (List String)) ≠ some ["T1", "T2"] := by
  refine ⟨rfl, by decide, ?_, by decide⟩
  simp only [ne_eq, Option.some.injEq]
  norm_num

/-- C8 amended — for every canonical entity, the merged `relations` are the
first contributing observation's relations **twice** (the seeding aliases
`item.metadata` and then concatenates it onto itself) followed by the later
contributing observations' relations concatenated in observation order; the
merged `sentiment` and `ttps` are simply the first contributing
observation's values — no averaging and no union is performed. -/
theorem c8_amended (now : Int) (rows : List Row) (k : String)
    (s : EntityStats) (h : mfind (entityStats now rows) k = some s) :
    ∃ r0 t, contributing rows k = r0 :: t ∧
      s.metadata.relations.getD [] =
        ((relsOf r0).getD [] ++ (relsOf r0).getD []) ++
          t.flatMap (fun r => (relsOf r).getD []) ∧
      s.metadata.average_sentiment = (r0.metadata.getD {}).average_sentiment ∧
      s.metadata.ttps = (r0.metadata.getD {}).ttps := by
  obtain ⟨r0, t, hc, _, _, _, _, _, _, _, _, hsent, http, hrel⟩ :=
    entityStats_spec now rows k s h
  exact ⟨r0, t, hc, hrel, hsent, http⟩

def c8stats : EntityStats :=
  ⟨"ip", "X", "x", 0, 5, 2, ["nlp"], ["i1"],
    { relations := some [("a", "b"), ("a", "b"), ("c", "d")],
      average_sentiment := some 0, ttps := some ["T1"] }⟩

/-- C8 witness: the amended statement applied to the concrete two-row run. -/
theorem c8_witness :
    mfind (entityStats 100 (dbFilter [c8r1, c8r2])) "ent - ip -x " =
      some c8stats ∧
    ∃ r0 t, contributing (dbFilter [c8r1, c8r2]) "ent - ip -x " = r0 :: t ∧
      c8stats.metadata.relations.getD [] =
        ((relsOf r0).getD [] ++ (relsOf r0).getD []) ++
          t.flatMap (fun r => (relsOf r).getD []) ∧
      c8stats.metadata.average_sentiment =
        (r0.metadata.getD {}).average_sentiment ∧
      c8stats.metadata.ttps = (r0.metadata.getD {}).ttps :=
  ⟨rfl, c8_amended 100 (dbFilter [c8r1, c8r2]) "ent - ip -x " c8stats rfl⟩

/-! ### C7: small populations -/

def c7now : Int := 100 * oneDayMs

def c7row1 : Row := ⟨"1", "i1", "ip", "X", some "x", some (99 * oneDayMs), none, none⟩

def c7row2 : Row := ⟨"2", "i1", "ip", "X", some "x", some (99 * oneDayMs), none, none⟩

def c7pat : Pattern := ⟨2, 2, 0, 1, "ip", "X"⟩

/-- C7 counterexample: a run with exactly **one** aggregated entity (two
observations of it inside the last 7 days) still produces an anomaly
(`freq7d = 2`, `monthlyAvg = 1/2`, spike ratio `4 > 3`), and the population
averages are the entity's own values rather than 0 (`avgDegree = 1`). -/
theorem c7_counterexample :
    (entityStats c7now (dbFilter [c7row1, c7row2])).length = 1 ∧
    anomaliesOf (patternsOf c7now (dbFilter [c7row1, c7row2])) ≠ [] ∧
    avgDegreeOf (patternsOf c7now (dbFilter [c7row1, c7row2])) = 1 ∧
    (1 : ℚ) ≠ 0 := by
  have hp : patterns0 c7now (dbFilter [c7row1, c7row2]) =
      [("ent - ip -x ", c7pat)] := by decide
  refine ⟨by decide, ?_, ?_, by norm_num⟩
  · rw [anomaliesOf_patternsOf, hp]
    have h1 : monthlyAvgOf c7pat = 1 / 2 := by norm_num [monthlyAvgOf, c7pat]
    have h2 : ((c7pat.freq7d : ℚ)) / monthlyAvgOf c7pat = 4 := by
      rw [h1]; norm_num [c7pat]
    have ha : (anomalyFor c7pat).isSome := by
      unfold anomalyFor
      rw [h2, h1]
      norm_num [c7pat]
    unfold anomaliesOf
    simp only [List.foldl_cons, List.foldl_nil]
    cases hx : anomalyFor c7pat with
    | none => rw [hx] at ha; simp at ha
    | some a => simp [hx]
  · rw [avgDegreeOf_patternsOf, hp]
    norm_num [avgDegreeOf, c7pat]

/-- C7 amended — with **zero** aggregated entities the averages default
to 0 and no anomalies or key entities are produced; with exactly one
pattern entry the averages equal that entity's own score and degree (and,
as the counterexample records, anomalies can still be produced). -/
theorem c7_amended :
    (∀ (now : Int) (rows : List Row), entityStats now rows = [] →
      patterns0 now rows = [] ∧
      anomaliesOf (patternsOf now rows) = [] ∧
      topEntitiesRaw (patternsOf now rows) = [] ∧
      avgPriorityOf (patternsOf now rows) = 0 ∧
      avgDegreeOf (patternsOf now rows) = 0) ∧
    (∀ e : String × Pattern,
      avgPriorityOf [e] = (e.2.priorityScore : ℚ) ∧
      avgDegreeOf [e] = (e.2.degree : ℚ)) := by
  constructor
  · intro now rows h
    have hrows : rows = [] := (mapFold_eq_nil_iff _ _ _ rows).mp h
    subst hrows
    refine ⟨rfl, rfl, rfl, ?_, ?_⟩ <;> norm_num [avgPriorityOf, avgDegreeOf,
      patternsOf, patterns0, mapFold]
  · intro e
    constructor <;> norm_num [avgPriorityOf, avgDegreeOf]

/-- C7 witness: the amended zero-entity case applied to the empty run. -/
theorem c7_witness :
    entityStats 0 [] = [] ∧
    (patterns0 0 [] = [] ∧
      anomaliesOf (patternsOf 0 []) = [] ∧
      topEntitiesRaw (patternsOf 0 []) = [] ∧
      avgPriorityOf (patternsOf 0 []) = 0 ∧
      avgDegreeOf (patternsOf 0 []) = 0) :=
  ⟨rfl, c7_amended.1 0 [] rfl⟩

/-! ### C6: graph node/edge well-formedness -/

def c6inv : Investigation := ⟨"i1", "http://example.com"⟩

def c6row : Row := ⟨"1", "i1", "ip", "X", some "x", some 0, none, none⟩

/-- C6 — evaluation at the failing input: with one investigation and one
observation the handler's `entityStats.forEach` body pushes **two** nodes
with the same id `"ent - ip -x "` (the loop contains two
`nodes.push({ id: entityId, … })` calls), so the emitted node ids are not
duplicate-free — contradicting the claim's "exactly one node per scored
canonical entity (no duplicate node ids)".  The single emitted edge does
connect two existing node ids at this input. -/
theorem c6_duplicate_nodes :
    nodesOf [c6inv] (entityStats 0 (dbFilter [c6row])) =
      [⟨"inv - i1 ", "input"⟩, ⟨"ent - ip -x ", "default"⟩,
        ⟨"ent - ip -x ", ""⟩] ∧
    ¬ ((nodesOf [c6inv] (entityStats 0 (dbFilter [c6row]))).map
        GraphNode.id).Nodup ∧
    edgesOf (entityStats 0 (dbFilter [c6row])) =
      [⟨"e - i1 -ent - ip -x  ", "inv - i1 ", "ent - ip -x "⟩] ∧
    (∀ e ∈ edgesOf (entityStats 0 (dbFilter [c6row])),
      e.source ∈ (nodesOf [c6inv] (entityStats 0 (dbFilter [c6row]))).map
          GraphNode.id ∧
      e.target ∈ (nodesOf [c6inv] (entityStats 0 (dbFilter [c6row]))).map
          GraphNode.id) :=
  ⟨by decide, by decide, by decide, by decide⟩

/-! ### C9: insights shape -/

/-- C9 — Insights shape and ordering: the returned insights hold the key
entities capped to at most 5 and sorted descending by priority, the
anomalies capped to at most 5 and sorted descending by spike ratio, and
stats carrying the node count, the edge count and the (rounded) population
averages; membership in the key-entity list requires
`priorityScore ≥ avgPriority + (100 - avgPriority) * 0.5`,
`degree ≥ avgDegree`, and an entity type in {person, organization}. -/
theorem c9_insights_shape (nodes : List GraphNode) (edges : List GraphEdge)
    (ps : List (String × Pattern)) :
    (insightsOf nodes edges ps).top_entities.length ≤ 5 ∧
    List.Sorted priorityDesc (insightsOf nodes edges ps).top_entities ∧
    (∀ e ∈ (insightsOf nodes edges ps).top_entities,
      thresholdOf ps ≤ (e.priority : ℚ) ∧
      avgDegreeOf ps ≤ (e.degree : ℚ) ∧
      e.type ∈ ["person", "organization"]) ∧
    (insightsOf nodes edges ps).anomalies.length ≤ 5 ∧
    List.Sorted spikeDesc (insightsOf nodes edges ps).anomalies ∧
    (insightsOf nodes edges ps).stats.total_nodes = nodes.length ∧
    (insightsOf nodes edges ps).stats.total_edges = edges.length ∧
    (insightsOf nodes edges ps).stats.avg_priority =
      jsRound (avgPriorityOf ps) ∧
    (insightsOf nodes edges ps).stats.avg_degree =
      (jsRound (avgDegreeOf ps * 10) : ℚ) / 10 := by
  refine ⟨List.length_take_le 5 _, ?_, ?_, List.length_take_le 5 _, ?_,
    rfl, rfl, rfl, rfl⟩
  · exact List.Pairwise.sublist (List.take_sublist 5 _)
      (List.sorted_insertionSort priorityDesc (topEntitiesRaw ps))
  · intro e he
    have h1 : e ∈ List.insertionSort priorityDesc (topEntitiesRaw ps) :=
      List.take_subset 5 _ he
    have h2 : e ∈ topEntitiesRaw ps :=
      (List.perm_insertionSort priorityDesc (topEntitiesRaw ps)).subset h1
    obtain ⟨q, _, hk, rfl⟩ := (mem_topEntitiesRaw ps e).mp h2
    exact ⟨hk.1, hk.2.1, hk.2.2⟩
  · exact List.Pairwise.sublist (List.take_sublist 5 _)
      (List.sorted_insertionSort spikeDesc (anomaliesOf ps))

def c9pat : Pattern := ⟨0, 0, 100, 1, "person", "Alice"⟩

def c9ps : List (String × Pattern) := [("ent - person -alice ", c9pat)]

def c9top : TopEntity := ⟨"Alice", "person", 100, 1⟩

/-- C9 witness: the key-entity membership clause applied to a concrete
one-pattern population in which the single person entity qualifies. -/
theorem c9_witness :
    c9top ∈ (insightsOf [] [] c9ps).top_entities ∧
    (thresholdOf c9ps ≤ (c9top.priority : ℚ) ∧
      avgDegreeOf c9ps ≤ (c9top.degree : ℚ) ∧
      c9top.type ∈ ["person", "organization"]) := by
  have hmem : c9top ∈ (insightsOf [] [] c9ps).top_entities := by
    have hkey : isKeyEntity c9ps c9pat := by
      unfold isKeyEntity thresholdOf avgPriorityOf avgDegreeOf
      norm_num [c9ps, c9pat]
    have hraw : topEntitiesRaw c9ps = [c9top] := by
      unfold topEntitiesRaw
      simp only [c9ps] at hkey ⊢
      simp only [List.foldl_cons, List.foldl_nil, if_pos hkey]
      rfl
    show c9top ∈ (List.insertionSort priorityDesc (topEntitiesRaw c9ps)).take 5
    rw [hraw]
    decide
  exact ⟨hmem, (c9_insights_shape [] [] c9ps).2.2.1 c9top hmem⟩

end Engine
